import Mathlib

/-!
Formal model of the `view-guard-meta` edge AI service core
(`ai_service/inference.py`, `ai_service/detection.py`, `ai_service/model_loader.py`).

Numeric values that are Python floats in the source are modelled as exact
rationals (`ℚ`); pixel intensities are modelled as `Fin 256` (uint8).
Recursive loops whose argument shrinks via `filter` are written with an
explicit fuel argument initialised to the list length (always sufficient,
since each iteration pops one element); unfolding lemmas below recover the
natural recurrences.
-/

namespace ViewGuard

/-- Bounding box for a detected object, mirroring the `BoundingBox` dataclass in
`ai_service/inference.py`: corner coordinates, confidence, class id and class name. -/
structure BoundingBox where
  x1 : ℚ
  y1 : ℚ
  x2 : ℚ
  y2 : ℚ
  confidence : ℚ
  class_id : Nat
  class_name : String
  deriving DecidableEq, Repr

/-- Intersection-over-union of two boxes, translated line by line from
`PostProcessor._calculate_iou` in `ai_service/inference.py`. -/
def calculate_iou (box1 box2 : BoundingBox) : ℚ :=
  let x1_inter := max box1.x1 box2.x1
  let y1_inter := max box1.y1 box2.y1
  let x2_inter := min box1.x2 box2.x2
  let y2_inter := min box1.y2 box2.y2
  if x2_inter ≤ x1_inter ∨ y2_inter ≤ y1_inter then 0
  else
    let inter_area := (x2_inter - x1_inter) * (y2_inter - y1_inter)
    let box1_area := (box1.x2 - box1.x1) * (box1.y2 - box1.y1)
    let box2_area := (box2.x2 - box2.x1) * (box2.y2 - box2.y1)
    let union_area := box1_area + box2_area - inter_area
    if union_area = 0 then 0 else inter_area / union_area

/-- Ordering used by the fallback NMS: `sorted(boxes, key=lambda b: b.confidence,
reverse=True)` orders boxes by non-increasing confidence (stably). -/
def confDesc (a b : BoundingBox) : Prop := b.confidence ≤ a.confidence

instance : DecidableRel confDesc :=
  fun a b => inferInstanceAs (Decidable (b.confidence ≤ a.confidence))

instance : IsTotal BoundingBox confDesc := ⟨fun a b => le_total b.confidence a.confidence⟩

instance : IsTrans BoundingBox confDesc := ⟨fun _ _ _ h1 h2 => le_trans h2 h1⟩

/-- Stable sort by confidence descending, modelling Python's stable `sorted` with
`key=lambda b: b.confidence, reverse=True` in `PostProcessor._simple_nms`. -/
def sortedByConfDesc (boxes : List BoundingBox) : List BoundingBox :=
  List.insertionSort confDesc boxes

/-- Suppression loop of `PostProcessor._simple_nms`, with explicit fuel: pop the
highest-confidence box, keep it, and retain only the remaining boxes whose IoU
with it is strictly below the threshold (`if iou < self.nms_threshold`). -/
def nmsLoopFuel (t : ℚ) : Nat → List BoundingBox → List BoundingBox
  | _, [] => []
  | 0, _ :: _ => []
  | fuel + 1, current :: rest =>
      current :: nmsLoopFuel t fuel (rest.filter fun b => calculate_iou current b < t)

/-- Suppression loop of `PostProcessor._simple_nms` (fuel instantiated to the list
length, which always suffices because every iteration pops one element). -/
def nmsLoop (t : ℚ) (l : List BoundingBox) : List BoundingBox :=
  nmsLoopFuel t l.length l

/-- The fallback greedy NMS `PostProcessor._simple_nms`: early return on the empty
list, then sort by confidence descending and run the suppression loop. -/
def simple_nms (t : ℚ) (boxes : List BoundingBox) : List BoundingBox :=
  if boxes.isEmpty then [] else nmsLoop t (sortedByConfDesc boxes)

/-- Area of a box, written as the specification words it: `(x2-x1)*(y2-y1)`. -/
def boxArea (b : BoundingBox) : ℚ := (b.x2 - b.x1) * (b.y2 - b.y1)

/-- Intersection area of two boxes (overlap width times overlap height). -/
def interArea (b1 b2 : BoundingBox) : ℚ :=
  (min b1.x2 b2.x2 - max b1.x1 b2.x1) * (min b1.y2 b2.y2 - max b1.y1 b2.y1)

/-- Union area of two boxes: `area1 + area2 - intersection_area`. -/
def unionArea (b1 b2 : BoundingBox) : ℚ := boxArea b1 + boxArea b2 - interArea b1 b2

/-- Two boxes overlap when their intersection rectangle has positive width and height. -/
def overlaps (b1 b2 : BoundingBox) : Prop :=
  max b1.x1 b2.x1 < min b1.x2 b2.x2 ∧ max b1.y1 b2.y1 < min b1.y2 b2.y2

instance (b1 b2 : BoundingBox) : Decidable (overlaps b1 b2) :=
  inferInstanceAs (Decidable (_ ∧ _))

/-- IoU exactly as the specification words it: `intersection_area /
(area1+area2-intersection_area)`, defined as `0` when the boxes do not overlap
or the union area is `0`. -/
def iouSpec (b1 b2 : BoundingBox) : ℚ :=
  if ¬ overlaps b1 b2 ∨ unionArea b1 b2 = 0 then 0
  else interArea b1 b2 / unionArea b1 b2

/-- Greedy suppression loop following the amended specification wording: emit the
highest-confidence remaining box, then remove every remaining box whose IoU with
it is at least (`≥`) the threshold. -/
def specRemoveGeFuel (t : ℚ) : Nat → List BoundingBox → List BoundingBox
  | _, [] => []
  | 0, _ :: _ => []
  | fuel + 1, current :: rest =>
      current :: specRemoveGeFuel t fuel (rest.filter fun b => ¬ t ≤ iouSpec current b)

/-- Greedy NMS following the amended specification wording (removal at IoU `≥`
threshold): sort by confidence descending, then suppress. -/
def specGreedyRemoveGE (t : ℚ) (boxes : List BoundingBox) : List BoundingBox :=
  specRemoveGeFuel t boxes.length (sortedByConfDesc boxes)

/-- Greedy suppression loop with the claim's literal wording: remove every
remaining box whose IoU with the emitted box strictly exceeds the threshold
(so a box with IoU exactly equal to the threshold is kept). -/
def strictRemoveFuel (t : ℚ) : Nat → List BoundingBox → List BoundingBox
  | _, [] => []
  | 0, _ :: _ => []
  | fuel + 1, current :: rest =>
      current :: strictRemoveFuel t fuel (rest.filter fun b => iouSpec current b ≤ t)

/-- Suppression loop with the claim's literal wording, fuel instantiated to the
length of the list being processed. -/
def strictLoopLen (t : ℚ) (l : List BoundingBox) : List BoundingBox :=
  strictRemoveFuel t l.length l

/-- Greedy NMS with the claim's literal wording (removal only at IoU strictly
greater than the threshold). -/
def nmsClaimStrict (t : ℚ) (boxes : List BoundingBox) : List BoundingBox :=
  strictLoopLen t (sortedByConfDesc boxes)

/-- One raw YOLOv8 output row, as iterated by `PostProcessor.process_output`:
`[x_center, y_center, width, height, conf_class_0, conf_class_1, ...]`. -/
structure RawDetection where
  x_center : ℚ
  y_center : ℚ
  width : ℚ
  height : ℚ
  class_scores : List ℚ
  deriving DecidableEq, Repr

/-- Helper for `argmaxIdx`: scan the remaining scores keeping the first index at
which the running maximum was attained (`np.argmax` returns the first maximum). -/
def argmaxAux : List ℚ → Nat → Nat → ℚ → Nat
  | [], _, best_i, _ => best_i
  | v :: rest, i, best_i, best_v =>
      if best_v < v then argmaxAux rest (i + 1) i v
      else argmaxAux rest (i + 1) best_i best_v

/-- Index of the first maximal element, modelling `np.argmax(class_scores)` (the
model's rows always carry at least one class score; on `[]` we return `0`). -/
def argmaxIdx : List ℚ → Nat
  | [] => 0
  | v :: rest => argmaxAux rest 1 0 v

/-- Decoding of a single output row inside the loop of
`PostProcessor.process_output`: argmax class score, early confidence reject,
center-form to corner-form, inversion of the letterbox with the hardcoded
constant `640`, clipping to the original image, and the degenerate-box drop.
Returns `none` exactly when the row hits a `continue`. -/
def decodeRow (confidence_threshold : ℚ) (scale : ℚ) (pad_x pad_y : ℚ)
    (original_height original_width : ℚ) (class_names : List String)
    (d : RawDetection) : Option BoundingBox :=
  let class_id := argmaxIdx d.class_scores
  let confidence := d.class_scores.getD class_id 0
  if confidence < confidence_threshold then none
  else
    let x1_norm := d.x_center - d.width / 2
    let y1_norm := d.y_center - d.height / 2
    let x2_norm := d.x_center + d.width / 2
    let y2_norm := d.y_center + d.height / 2
    let x1 := (x1_norm * 640 - pad_x) / scale
    let y1 := (y1_norm * 640 - pad_y) / scale
    let x2 := (x2_norm * 640 - pad_x) / scale
    let y2 := (y2_norm * 640 - pad_y) / scale
    let x1c := max 0 (min x1 original_width)
    let y1c := max 0 (min y1 original_height)
    let x2c := max 0 (min x2 original_width)
    let y2c := max 0 (min y2 original_height)
    if x2c ≤ x1c ∨ y2c ≤ y1c then none
    else some
      { x1 := x1c, y1 := y1c, x2 := x2c, y2 := y2c, confidence := confidence,
        class_id := class_id,
        class_name := class_names.getD class_id ("class_" ++ toString class_id) }

/-- Decoding of a single output row following the claim's wording instead of the
source: the letterbox inversion uses a parameter `input_side` (said by the claim
to equal the Preprocessor's configured target size) as the normalization base. -/
def decodeRowClaim (input_side : ℚ) (confidence_threshold : ℚ) (scale : ℚ)
    (pad_x pad_y : ℚ) (original_height original_width : ℚ)
    (class_names : List String) (d : RawDetection) : Option BoundingBox :=
  let class_id := argmaxIdx d.class_scores
  let confidence := d.class_scores.getD class_id 0
  if confidence < confidence_threshold then none
  else
    let x1 := ((d.x_center - d.width / 2) * input_side - pad_x) / scale
    let y1 := ((d.y_center - d.height / 2) * input_side - pad_y) / scale
    let x2 := ((d.x_center + d.width / 2) * input_side - pad_x) / scale
    let y2 := ((d.y_center + d.height / 2) * input_side - pad_y) / scale
    let x1c := max 0 (min x1 original_width)
    let y1c := max 0 (min y1 original_height)
    let x2c := max 0 (min x2 original_width)
    let y2c := max 0 (min y2 original_height)
    if x2c ≤ x1c ∨ y2c ≤ y1c then none
    else some
      { x1 := x1c, y1 := y1c, x2 := x2c, y2 := y2c, confidence := confidence,
        class_id := class_id,
        class_name := class_names.getD class_id ("class_" ++ toString class_id) }

/-- The whole of `PostProcessor.process_output` on an already-squeezed list of
rows: decode every row (dropping rejected ones), then apply NMS. When OpenCV is
present the NMS step is `cv2.dnn.NMSBoxes`, an opaque external routine returning
indices into the decoded list; it is modelled by the abstract index selector
`nmsIdx`, applied exactly as `_apply_nms` applies it (empty-list early return,
then `[boxes[i] for i in indices]`). -/
def process_output (confidence_threshold : ℚ)
    (nmsIdx : List BoundingBox → List Nat)
    (class_names : List String)
    (scale : ℚ) (padding : ℚ × ℚ) (original_shape : ℚ × ℚ)
    (detections : List RawDetection) : List BoundingBox :=
  let boxes := detections.filterMap
    (decodeRow confidence_threshold scale padding.1 padding.2
      original_shape.1 original_shape.2 class_names)
  if boxes.isEmpty then [] else (nmsIdx boxes).filterMap (fun i => boxes[i]?)

/-- Configuration of `FramePreprocessor`: the stored `target_size` is a
`(width, height)` pair; the constructor default is `(640, 640)`. -/
structure FramePreprocessor where
  target_size : Nat × Nat
  deriving DecidableEq, Repr

/-- Width component of the preprocessor's target size (`self.target_width`). -/
def FramePreprocessor.target_width (p : FramePreprocessor) : Nat := p.target_size.1

/-- Height component of the preprocessor's target size (`self.target_height`). -/
def FramePreprocessor.target_height (p : FramePreprocessor) : Nat := p.target_size.2

/-- The default preprocessor configuration `FramePreprocessor()`. -/
def defaultFramePreprocessor : FramePreprocessor := { target_size := (640, 640) }

/-- An input frame: a `height × width` raster of BGR uint8 pixels (indexed row,
column, channel), modelling the numpy array handed to `preprocess`. -/
structure Frame where
  height : Nat
  width : Nat
  px : Nat → Nat → Fin 3 → Fin 256

/-- The letterbox preprocessing `FramePreprocessor.preprocess`, translated
statement by statement. `cv2.resize` (bilinear interpolation, an external
routine) is abstracted as `resizePx frame new_width new_height`, giving the
pixels of the resized raster; the code fixes its dimensions to
`(new_width, new_height)`. Python's `int()` on the non-negative products is
the floor, and `//` is `Int.fdiv`. The returned tensor is indexed
`(batch, channel, y, x)` as produced by the final transpose and
`expand_dims`, with `cv2.cvtColor(.., COLOR_BGR2RGB)` reversing the channel
order. -/
def preprocess (resizePx : Frame → Nat → Nat → Nat → Nat → Fin 3 → Fin 256)
    (p : FramePreprocessor) (frame : Frame) :
    (Fin 1 → Fin 3 → Nat → Nat → ℚ) × ℚ × (Int × Int) :=
  let W := p.target_width
  let H := p.target_height
  let scale : ℚ := min ((W : ℚ) / (frame.width : ℚ)) ((H : ℚ) / (frame.height : ℚ))
  let new_width : Nat := (Int.floor ((frame.width : ℚ) * scale)).toNat
  let new_height : Nat := (Int.floor ((frame.height : ℚ) * scale)).toNat
  let resized : Nat → Nat → Fin 3 → Fin 256 := resizePx frame new_width new_height
  let pad_x : Int := Int.fdiv ((W : Int) - (new_width : Int)) 2
  let pad_y : Int := Int.fdiv ((H : Int) - (new_height : Int)) 2
  let padded : Nat → Nat → Fin 3 → Fin 256 := fun y x c =>
    if pad_y.toNat ≤ y ∧ y < pad_y.toNat + new_height
       ∧ pad_x.toNat ≤ x ∧ x < pad_x.toNat + new_width
    then resized (y - pad_y.toNat) (x - pad_x.toNat) c
    else (114 : Fin 256)
  let rgb : Nat → Nat → Fin 3 → Fin 256 := fun y x c => padded y x ⟨2 - c.val, by omega⟩
  let normalized : Nat → Nat → Fin 3 → ℚ := fun y x c => ((rgb y x c : Nat) : ℚ) / 255
  let nchw : Fin 3 → Nat → Nat → ℚ := fun c y x => normalized y x c
  let batch : Fin 1 → Fin 3 → Nat → Nat → ℚ := fun _ => nchw
  (batch, scale, (pad_x, pad_y))

/-- Detection result for one frame, mirroring the `DetectionResult` dataclass. -/
structure DetectionResult where
  bounding_boxes : List BoundingBox
  inference_time_ms : ℚ
  frame_shape : Nat × Nat
  model_input_shape : Nat × Nat
  deriving DecidableEq, Repr

/-- Filter configuration, mirroring the `DetectionFilter` dataclass in
`ai_service/detection.py`. `max_area` defaults to Python's `float('inf')`,
modelled as `⊤` in `WithTop ℚ`. The dataclass performs no validation of its
fields. -/
structure DetectionFilter where
  enabled_classes : Option (List String)
  min_confidence : ℚ
  min_area : ℚ
  max_area : WithTop ℚ
  deriving DecidableEq

/-- The default configuration `DetectionFilter()`. -/
def defaultDetectionFilter : DetectionFilter :=
  { enabled_classes := none, min_confidence := 1/2, min_area := 0, max_area := ⊤ }

/-- The per-box keep decision of `DetectionLogic.filter_detections`, written as
the chain of `continue` tests in the source loop. -/
def keepBox (f : DetectionFilter) (b : BoundingBox) : Bool :=
  if b.confidence < f.min_confidence then false
  else
    let classRejected : Bool :=
      match f.enabled_classes with
      | some cs => ! cs.contains b.class_name
      | none => false
    if classRejected then false
    else
      let area := (b.x2 - b.x1) * (b.y2 - b.y1)
      if area < f.min_area ∨ f.max_area < (area : WithTop ℚ) then false
      else true

/-- The body of `DetectionLogic.filter_detections`: keep the boxes passing every
test, copy the other fields of the result unchanged. -/
def filter_detections (f : DetectionFilter) (result : DetectionResult) : DetectionResult :=
  { bounding_boxes := result.bounding_boxes.filter (keepBox f),
    inference_time_ms := result.inference_time_ms,
    frame_shape := result.frame_shape,
    model_input_shape := result.model_input_shape }

/-- The claim's wording of the keep condition: confidence at least
`min_confidence`, class enabled (or no class restriction), and area between
`min_area` and `max_area`. -/
def claimKeep (f : DetectionFilter) (b : BoundingBox) : Prop :=
  f.min_confidence ≤ b.confidence
  ∧ (∀ cs, f.enabled_classes = some cs → b.class_name ∈ cs)
  ∧ f.min_area ≤ boxArea b
  ∧ ((boxArea b : ℚ) : WithTop ℚ) ≤ f.max_area

/-- The setter `DetectionLogic.set_confidence_threshold`: values outside `[0,1]`
raise `ValueError` before any mutation (first component `some message`, state
returned unchanged); values inside update `min_confidence`. -/
def set_confidence_threshold (threshold : ℚ) (f : DetectionFilter) :
    Option String × DetectionFilter :=
  if ¬ (0 ≤ threshold ∧ threshold ≤ 1) then
    (some "Confidence threshold must be between 0.0 and 1.0", f)
  else
    (none, { f with min_confidence := threshold })

/-- Model metadata, mirroring the fields of the `ModelInfo` dataclass that the
reload-callback claim depends on. -/
structure ModelInfo where
  name : String
  version : String
  format : String
  checksum : Option String
  deriving DecidableEq, Repr

/-- The mutable state of `ModelLoader` relevant to the callback claim: the
currently published model (`self._current_model`), `None` before any load. -/
structure LoaderState where
  current_model : Option ModelInfo
  deriving DecidableEq, Repr

/-- The body of `ModelLoader.load_model` under its lock. The filesystem
resolution, validation and OpenVINO compilation (`_find_model_files`,
`_validate_model_files`, `_load_openvino_model`) are external effects modelled
by their combined outcome `find_result`; on error it propagates before any
state change. On success the current model is swapped, and if a callback is
registered and a model was already current the callback is invoked exactly once
with the new `ModelInfo` — its outcome (including a raised exception, the
`Except.error` case) is recorded in the returned invocation trace but caught,
so the call still returns the new `ModelInfo`. -/
def load_model (find_result : Except String ModelInfo)
    (on_model_reloaded : Option (ModelInfo → Except String Unit))
    (s : LoaderState) :
    Except String ModelInfo × LoaderState × List (ModelInfo × Except String Unit) :=
  match find_result with
  | .error e => (.error e, s, [])
  | .ok model_info =>
      let old_model := s.current_model
      let s2 : LoaderState := { current_model := some model_info }
      match on_model_reloaded, old_model with
      | some cb, some _ => (.ok model_info, s2, [(model_info, cb model_info)])
      | _, _ => (.ok model_info, s2, [])

/-- Concrete box used to exercise the NMS threshold boundary: the unit of the
counterexample for the strict-inequality reading of suppression. -/
def cexBoxA : BoundingBox :=
  { x1 := 0, y1 := 0, x2 := 10, y2 := 10, confidence := 9/10, class_id := 0, class_name := "person" }

/-- Concrete box overlapping `cexBoxA` with IoU exactly `1/2`. -/
def cexBoxB : BoundingBox :=
  { x1 := 0, y1 := 0, x2 := 10, y2 := 5, confidence := 4/5, class_id := 0, class_name := "person" }

/-- First monotonicity-counterexample box: overlaps `mB` with IoU `1/9`, and
touches `mC`/`mD` only along an edge (IoU `0`). -/
def mA : BoundingBox :=
  { x1 := 2, y1 := 0, x2 := 12, y2 := 10, confidence := 9/10, class_id := 0, class_name := "person" }

/-- Second monotonicity-counterexample box: overlaps `mC` and `mD` with IoU `2/5`. -/
def mB : BoundingBox :=
  { x1 := 10, y1 := 0, x2 := 20, y2 := 10, confidence := 8/10, class_id := 0, class_name := "person" }

/-- Third monotonicity-counterexample box (upper-right half of `mB`). -/
def mC : BoundingBox :=
  { x1 := 12, y1 := 0, x2 := 20, y2 := 5, confidence := 7/10, class_id := 0, class_name := "person" }

/-- Fourth monotonicity-counterexample box (lower-right half of `mB`). -/
def mD : BoundingBox :=
  { x1 := 12, y1 := 5, x2 := 20, y2 := 10, confidence := 6/10, class_id := 0, class_name := "person" }

/-- Four boxes violating NMS threshold monotonicity: at threshold `1/10` box
`mA` suppresses `mB` and the run keeps `mA, mC, mD`; at the higher threshold
`2/5` box `mB` survives and suppresses both `mC` and `mD`, leaving `mA, mB`. -/
def monoBoxes : List BoundingBox := [mA, mB, mC, mD]

/-- Two overlapping boxes for the monotonicity witness at small list lengths. -/
def monoSmallBoxes : List BoundingBox :=
  [ { x1 := 0, y1 := 0, x2 := 10, y2 := 10, confidence := 9/10, class_id := 0, class_name := "person" },
    { x1 := 0, y1 := 0, x2 := 10, y2 := 5, confidence := 4/5, class_id := 2, class_name := "car" } ]

/-- A raw output row whose decoded box depends visibly on the normalization
base: centered at `(1/2, 1/2)` with side `1/4` and one class score `9/10`. -/
def c2Row : RawDetection :=
  { x_center := 1/2, y_center := 1/2, width := 1/4, height := 1/4, class_scores := [9/10] }

/-- The box that the source decode produces from `c2Row` at scale `1`, zero
padding and a `320×320` original image (the hardcoded base `640` pushes the
corners out to the clip boundary). -/
def c2Box : BoundingBox :=
  { x1 := 240, y1 := 240, x2 := 320, y2 := 320, confidence := 9/10, class_id := 0,
    class_name := "person" }

/-- Concrete frame for the preprocessing witness: `1×2` raster of constant
BGR value `100`. -/
def wFrame : Frame :=
  { height := 1, width := 2, px := fun _ _ _ => (100 : Fin 256) }

/-- Concrete resize stand-in for the preprocessing witness: every resized pixel
reads `50`. -/
def wResize : Frame → Nat → Nat → Nat → Nat → Fin 3 → Fin 256 :=
  fun _ _ _ _ _ _ => (50 : Fin 256)

/-- Preprocessor configured at `4×4` for the preprocessing witness. -/
def wPre : FramePreprocessor := { target_size := (4, 4) }

/-- Model metadata produced by the witness reload. -/
def wInfo : ModelInfo :=
  { name := "yolov8n", version := "v2.0", format := "openvino", checksum := some "abc" }

/-- Model metadata current before the witness reload. -/
def wOld : ModelInfo :=
  { name := "yolov8n", version := "v1.0", format := "openvino", checksum := some "old" }

/-- A reload callback that always raises, for the witness of callback isolation. -/
def wCb : ModelInfo → Except String Unit := fun _ => .error "boom"

/-- Loader state with a model already current, for the witness reload. -/
def wState : LoaderState := { current_model := some wOld }

/-- Single box used by the NMS output-ordering witness. -/
def w10Box : BoundingBox :=
  { x1 := 1, y1 := 1, x2 := 3, y2 := 4, confidence := 3/4, class_id := 2, class_name := "car" }

/-- The fuel argument of the suppression loop is irrelevant as long as it is at
least the list length: the loop pops one element per iteration. -/
lemma nmsLoopFuel_congr (t : ℚ) (f1 f2 : Nat) (l : List BoundingBox)
    (h1 : l.length ≤ f1) (h2 : l.length ≤ f2) :
    nmsLoopFuel t f1 l = nmsLoopFuel t f2 l := by
  induction f1 generalizing f2 l with
  | zero =>
    cases l with
    | nil => cases f2 <;> rfl
    | cons c rest => simp at h1
  | succ n ih =>
    cases l with
    | nil => cases f2 <;> rfl
    | cons c rest =>
      cases f2 with
      | zero => simp at h2
      | succ m =>
        simp only [nmsLoopFuel, List.cons.injEq, true_and]
        exact ih _ _
          ((List.length_filter_le _ _).trans (Nat.le_of_succ_le_succ h1))
          ((List.length_filter_le _ _).trans (Nat.le_of_succ_le_succ h2))

/-- The suppression loop on the empty list yields the empty list. -/
lemma nmsLoop_nil (t : ℚ) : nmsLoop t [] = [] := rfl

/-- Unfolding of the suppression loop: keep the head, recurse on the remaining
boxes whose IoU with the head is below the threshold. -/
lemma nmsLoop_cons (t : ℚ) (c : BoundingBox) (rest : List BoundingBox) :
    nmsLoop t (c :: rest) = c :: nmsLoop t (rest.filter fun b => calculate_iou c b < t) := by
  unfold nmsLoop
  simp only [List.length_cons, nmsLoopFuel, List.cons.injEq, true_and]
  exact nmsLoopFuel_congr t rest.length _ _ (List.length_filter_le _ _) le_rfl

/-- The fuel of the claim-side strict suppression loop is likewise irrelevant
when at least the list length. -/
lemma strictRemoveFuel_congr (t : ℚ) (f1 f2 : Nat) (l : List BoundingBox)
    (h1 : l.length ≤ f1) (h2 : l.length ≤ f2) :
    strictRemoveFuel t f1 l = strictRemoveFuel t f2 l := by
  induction f1 generalizing f2 l with
  | zero =>
    cases l with
    | nil => cases f2 <;> rfl
    | cons c rest => simp at h1
  | succ n ih =>
    cases l with
    | nil => cases f2 <;> rfl
    | cons c rest =>
      cases f2 with
      | zero => simp at h2
      | succ m =>
        simp only [strictRemoveFuel, List.cons.injEq, true_and]
        exact ih _ _
          ((List.length_filter_le _ _).trans (Nat.le_of_succ_le_succ h1))
          ((List.length_filter_le _ _).trans (Nat.le_of_succ_le_succ h2))

/-- The strict suppression loop on the empty list yields the empty list. -/
lemma strictLoopLen_nil (t : ℚ) : strictLoopLen t [] = [] := rfl

/-- Unfolding of the strict suppression loop: keep the head, recurse on the
remaining boxes whose IoU with the head does not exceed the threshold. -/
lemma strictLoopLen_cons (t : ℚ) (c : BoundingBox) (rest : List BoundingBox) :
    strictLoopLen t (c :: rest)
      = c :: strictLoopLen t (rest.filter fun b => iouSpec c b ≤ t) := by
  unfold strictLoopLen
  simp only [List.length_cons, strictRemoveFuel, List.cons.injEq, true_and]
  exact strictRemoveFuel_congr t rest.length _ _ (List.length_filter_le _ _) le_rfl

/-- The suppression loop returns a subsequence of its input. -/
lemma nmsLoopFuel_sublist (t : ℚ) (fuel : Nat) : ∀ l : List BoundingBox,
    List.Sublist (nmsLoopFuel t fuel l) l := by
  induction fuel with
  | zero => intro l; cases l <;> exact List.nil_sublist _
  | succ n ih =>
    intro l
    cases l with
    | nil => exact List.nil_sublist _
    | cons c rest =>
      simp only [nmsLoopFuel]
      exact List.Sublist.cons₂ c ((ih _).trans (List.filter_sublist rest))

/-- The suppression loop returns a subsequence of its input. -/
lemma nmsLoop_sublist (t : ℚ) (l : List BoundingBox) : List.Sublist (nmsLoop t l) l :=
  nmsLoopFuel_sublist t l.length l

/-- Any two boxes kept by the suppression loop, in emission order, have IoU
strictly below the threshold. -/
lemma nmsLoopFuel_pairwise_iou (t : ℚ) (fuel : Nat) :
    ∀ l : List BoundingBox,
      List.Pairwise (fun a b => calculate_iou a b < t) (nmsLoopFuel t fuel l) := by
  induction fuel with
  | zero => intro l; cases l <;> simp [nmsLoopFuel]
  | succ n ih =>
    intro l
    cases l with
    | nil => simp [nmsLoopFuel]
    | cons c rest =>
      simp only [nmsLoopFuel]
      refine List.Pairwise.cons (fun b hb => ?_) (ih _)
      have hmem : b ∈ rest.filter (fun x => calculate_iou c x < t) :=
        (nmsLoopFuel_sublist t n _).subset hb
      exact of_decide_eq_true (List.mem_filter.mp hmem).2

/-- A list in which all earlier-to-later IoUs are below the threshold passes
through the suppression loop unchanged. -/
lemma nmsLoop_eq_self_of_pairwise (t : ℚ) (l : List BoundingBox)
    (h : List.Pairwise (fun a b => calculate_iou a b < t) l) : nmsLoop t l = l := by
  induction l with
  | nil => rfl
  | cons c rest ih =>
    rw [List.pairwise_cons] at h
    rw [nmsLoop_cons, List.filter_eq_self.mpr fun b hb => decide_eq_true (h.1 b hb)]
    rw [ih h.2]

/-- The sort step keeps exactly the input boxes (as a permutation). -/
lemma sortedByConfDesc_perm (l : List BoundingBox) : List.Perm (sortedByConfDesc l) l :=
  List.perm_insertionSort confDesc l

/-- The sort step orders boxes by non-increasing confidence. -/
lemma sortedByConfDesc_sorted (l : List BoundingBox) :
    List.Pairwise confDesc (sortedByConfDesc l) :=
  List.sorted_insertionSort confDesc l

/-- Sorting a list already ordered by non-increasing confidence is the identity. -/
lemma sortedByConfDesc_eq_self {l : List BoundingBox}
    (h : List.Pairwise confDesc l) : sortedByConfDesc l = l :=
  List.Sorted.insertionSort_eq h

/-- The source IoU coincides with the specification's formula: intersection over
`area1+area2-intersection`, and `0` without overlap or with zero union area. -/
lemma iou_eq_iouSpec (b1 b2 : BoundingBox) : calculate_iou b1 b2 = iouSpec b1 b2 := by
  simp only [calculate_iou, iouSpec, overlaps, unionArea, interArea, boxArea]
  by_cases h : min b1.x2 b2.x2 ≤ max b1.x1 b2.x1 ∨ min b1.y2 b2.y2 ≤ max b1.y1 b2.y1
  · rw [if_pos h, if_pos (Or.inl ?_)]
    intro hc
    rcases h with h | h
    · exact absurd hc.1 (not_lt.mpr h)
    · exact absurd hc.2 (not_lt.mpr h)
  · rw [if_neg h]
    push_neg at h
    by_cases hu : (b1.x2 - b1.x1) * (b1.y2 - b1.y1) + (b2.x2 - b2.x1) * (b2.y2 - b2.y1) -
        (min b1.x2 b2.x2 - max b1.x1 b2.x1) * (min b1.y2 b2.y2 - max b1.y1 b2.y1) = 0
    · rw [if_pos hu, if_pos (Or.inr hu)]
    · rw [if_neg hu, if_neg ?_]
      push_neg
      exact ⟨h, hu⟩

/-- The amended-specification loop (remove at IoU at least the threshold)
computes the same list as the source loop (keep at IoU strictly below it). -/
lemma specRemoveGeFuel_eq_nmsLoopFuel (t : ℚ) (fuel : Nat) :
    ∀ l : List BoundingBox, specRemoveGeFuel t fuel l = nmsLoopFuel t fuel l := by
  induction fuel with
  | zero => intro l; cases l <;> rfl
  | succ n ih =>
    intro l
    cases l with
    | nil => rfl
    | cons c rest =>
      simp only [specRemoveGeFuel, nmsLoopFuel, List.cons.injEq, true_and]
      rw [List.filter_congr fun b _ => ?_, ih]
      simp [iou_eq_iouSpec, not_le]

/-- For lists of at most three boxes the greedy suppression count is monotone in
the threshold; the minimal failure of monotonicity needs four boxes. -/
lemma nmsLoop_length_mono_of_len_le_three (t1 t2 : ℚ) (h : t1 ≤ t2) :
    ∀ l : List BoundingBox, l.length ≤ 3 →
      (nmsLoop t1 l).length ≤ (nmsLoop t2 l).length := by
  intro l hl
  match l with
  | [] => exact le_rfl
  | [a] => simp [nmsLoop_cons, nmsLoop_nil]
  | [a, b] =>
    by_cases hab1 : calculate_iou a b < t1
    · have hab2 := lt_of_lt_of_le hab1 h
      simp [nmsLoop_cons, nmsLoop_nil, hab1, hab2]
    · by_cases hab2 : calculate_iou a b < t2 <;>
        simp [nmsLoop_cons, nmsLoop_nil, hab1, hab2]
  | [a, b, c] =>
    by_cases hab1 : calculate_iou a b < t1
    · have hab2 := lt_of_lt_of_le hab1 h
      by_cases hac1 : calculate_iou a c < t1
      · have hac2 := lt_of_lt_of_le hac1 h
        by_cases hbc1 : calculate_iou b c < t1
        · have hbc2 := lt_of_lt_of_le hbc1 h
          simp [nmsLoop_cons, nmsLoop_nil, hab1, hab2, hac1, hac2, hbc1, hbc2]
        · by_cases hbc2 : calculate_iou b c < t2 <;>
            simp [nmsLoop_cons, nmsLoop_nil, hab1, hab2, hac1, hac2, hbc1, hbc2]
      · by_cases hac2 : calculate_iou a c < t2
        · by_cases hbc2 : calculate_iou b c < t2 <;>
            simp [nmsLoop_cons, nmsLoop_nil, hab1, hab2, hac1, hac2, hbc2]
        · simp [nmsLoop_cons, nmsLoop_nil, hab1, hab2, hac1, hac2]
    · by_cases hab2 : calculate_iou a b < t2
      · by_cases hac1 : calculate_iou a c < t1
        · have hac2 := lt_of_lt_of_le hac1 h
          by_cases hbc2 : calculate_iou b c < t2 <;>
            simp [nmsLoop_cons, nmsLoop_nil, hab1, hab2, hac1, hac2, hbc2]
        · by_cases hac2 : calculate_iou a c < t2
          · by_cases hbc2 : calculate_iou b c < t2 <;>
              simp [nmsLoop_cons, nmsLoop_nil, hab1, hab2, hac1, hac2, hbc2]
          · simp [nmsLoop_cons, nmsLoop_nil, hab1, hab2, hac1, hac2]
      · by_cases hac1 : calculate_iou a c < t1
        · have hac2 := lt_of_lt_of_le hac1 h
          simp [nmsLoop_cons, nmsLoop_nil, hab1, hab2, hac1, hac2]
        · by_cases hac2 : calculate_iou a c < t2 <;>
            simp [nmsLoop_cons, nmsLoop_nil, hab1, hab2, hac1, hac2]

/-- Claim C1 (amended): the fallback greedy NMS sorts the candidates by
confidence descending (a permutation of the input in non-increasing confidence
order), then repeatedly emits the highest-confidence remaining box and removes
every other remaining box whose IoU with it is at least (`≥`, not strictly
greater than) `nms_threshold`, regardless of class, until no boxes remain; IoU
is `intersection_area / (area1+area2-intersection_area)` and `0` when the boxes
do not overlap or the union area is `0`. -/
theorem nms_greedy_characterization (t : ℚ) (boxes : List BoundingBox) :
    simple_nms t boxes = specGreedyRemoveGE t boxes
    ∧ List.Perm (sortedByConfDesc boxes) boxes
    ∧ List.Pairwise confDesc (sortedByConfDesc boxes)
    ∧ ∀ b1 b2 : BoundingBox, calculate_iou b1 b2 = iouSpec b1 b2 := by
  refine ⟨?_, sortedByConfDesc_perm boxes, sortedByConfDesc_sorted boxes, iou_eq_iouSpec⟩
  unfold simple_nms specGreedyRemoveGE nmsLoop
  rw [specRemoveGeFuel_eq_nmsLoopFuel]
  by_cases h : boxes.isEmpty
  · have hb : boxes = [] := List.isEmpty_iff.mp h
    subst hb
    rfl
  · rw [if_neg h]
    exact nmsLoopFuel_congr t _ _ _ le_rfl
      (le_of_eq (by rw [sortedByConfDesc, List.length_insertionSort]))

/-- Claim C1, counterexample to the strict-inequality reading: two boxes with
IoU exactly `1/2`; at `nms_threshold = 1/2` the source suppresses the second
box, while removal only of boxes whose IoU strictly exceeds the threshold
would keep both. -/
theorem nms_threshold_boundary_counterexample :
    calculate_iou cexBoxA cexBoxB = 1/2
    ∧ simple_nms (1/2) [cexBoxA, cexBoxB] = [cexBoxA]
    ∧ nmsClaimStrict (1/2) [cexBoxA, cexBoxB] = [cexBoxA, cexBoxB] := by
  have hiou : calculate_iou cexBoxA cexBoxB = 1/2 := by
    norm_num [calculate_iou, cexBoxA, cexBoxB, min_def, max_def]
  have hsort : sortedByConfDesc [cexBoxA, cexBoxB] = [cexBoxA, cexBoxB] := by
    norm_num [sortedByConfDesc, List.insertionSort, List.orderedInsert, confDesc,
      cexBoxA, cexBoxB]
  have hiouS : iouSpec cexBoxA cexBoxB = 1/2 := by rw [← iou_eq_iouSpec, hiou]
  refine ⟨hiou, ?_, ?_⟩
  · rw [simple_nms, if_neg (by simp), hsort, nmsLoop_cons]
    rw [show ([cexBoxB].filter fun b => calculate_iou cexBoxA b < (1:ℚ)/2) = [] from by
      simp [hiou]]
    rw [nmsLoop_nil]
  · rw [nmsClaimStrict, hsort, strictLoopLen_cons]
    rw [show ([cexBoxB].filter fun b => iouSpec cexBoxA b ≤ (1:ℚ)/2) = [cexBoxB] from by
      simp [hiouS]]
    rw [strictLoopLen_cons]
    rw [show ([] : List BoundingBox).filter (fun b => iouSpec cexBoxB b ≤ (1:ℚ)/2) = [] from rfl]
    rw [strictLoopLen_nil]

/-- Claim C4: applying the fallback greedy NMS to its own output returns that
output unchanged (idempotence: no surviving box removes another survivor). -/
theorem nms_idempotent (t : ℚ) (boxes : List BoundingBox) :
    simple_nms t (simple_nms t boxes) = simple_nms t boxes := by
  by_cases he : boxes.isEmpty
  · simp [simple_nms, he]
  · have hout : simple_nms t boxes = nmsLoop t (sortedByConfDesc boxes) := by
      rw [simple_nms, if_neg he]
    rw [hout]
    have hsorted : List.Pairwise confDesc (nmsLoop t (sortedByConfDesc boxes)) :=
      List.Pairwise.sublist (nmsLoop_sublist t _) (sortedByConfDesc_sorted boxes)
    by_cases ho : (nmsLoop t (sortedByConfDesc boxes)).isEmpty
    · rw [simple_nms, if_pos ho]
      exact (List.isEmpty_iff.mp ho).symm
    · rw [simple_nms, if_neg ho, sortedByConfDesc_eq_self hsorted]
      exact nmsLoop_eq_self_of_pairwise t _ (nmsLoopFuel_pairwise_iou t _ _)

/-- Claim C5 (amended): threshold monotonicity of the fallback greedy NMS holds
for inputs of at most three boxes (with four boxes it fails, see the
counterexample): for `t1 ≤ t2` the run at `t2` keeps at least as many boxes. -/
theorem nms_threshold_monotone_small (t1 t2 : ℚ) (h1 : t1 ≤ t2)
    (boxes : List BoundingBox) (h2 : boxes.length ≤ 3) :
    (simple_nms t1 boxes).length ≤ (simple_nms t2 boxes).length := by
  rw [simple_nms, simple_nms]
  by_cases he : boxes.isEmpty
  · simp [he]
  · rw [if_neg he, if_neg he]
    refine nmsLoop_length_mono_of_len_le_three t1 t2 h1 _ ?_
    rw [sortedByConfDesc, List.length_insertionSort]
    exact h2

/-- Witness for the amended C5 theorem at thresholds `1/4 ≤ 1/2` on a concrete
two-box list. -/
theorem nms_threshold_monotone_small_witness :
    (1 : ℚ)/4 ≤ 1/2 ∧ monoSmallBoxes.length ≤ 3
    ∧ (simple_nms (1/4) monoSmallBoxes).length ≤ (simple_nms (1/2) monoSmallBoxes).length :=
  ⟨by norm_num, by decide,
    nms_threshold_monotone_small (1/4) (1/2) (by norm_num) monoSmallBoxes (by decide)⟩

/-- Claim C5, counterexample: on the four concrete boxes of `monoBoxes`, the
run at the lower threshold `1/10` keeps three boxes while the run at the
higher threshold `2/5` keeps only two, so a higher `nms_threshold` can produce
strictly fewer surviving boxes. -/
theorem nms_monotonicity_counterexample :
    (1 : ℚ)/10 ≤ 2/5
    ∧ simple_nms (1/10) monoBoxes = [mA, mC, mD]
    ∧ simple_nms (2/5) monoBoxes = [mA, mB]
    ∧ ¬ (simple_nms (1/10) monoBoxes).length ≤ (simple_nms (2/5) monoBoxes).length := by
  have hAB : calculate_iou mA mB = 1/9 := by
    norm_num [calculate_iou, mA, mB, min_def, max_def]
  have hAC : calculate_iou mA mC = 0 := by
    norm_num [calculate_iou, mA, mC, min_def, max_def]
  have hAD : calculate_iou mA mD = 0 := by
    norm_num [calculate_iou, mA, mD, min_def, max_def]
  have hBC : calculate_iou mB mC = 2/5 := by
    norm_num [calculate_iou, mB, mC, min_def, max_def]
  have hBD : calculate_iou mB mD = 2/5 := by
    norm_num [calculate_iou, mB, mD, min_def, max_def]
  have hCD : calculate_iou mC mD = 0 := by
    norm_num [calculate_iou, mC, mD, min_def, max_def]
  have hsort : sortedByConfDesc monoBoxes = monoBoxes :=
    sortedByConfDesc_eq_self (by norm_num [monoBoxes, List.pairwise_cons, confDesc, mA, mB, mC, mD])
  have hrun1 : simple_nms (1/10) monoBoxes = [mA, mC, mD] := by
    rw [simple_nms, if_neg (by simp [monoBoxes]), hsort,
      show monoBoxes = [mA, mB, mC, mD] from rfl, nmsLoop_cons]
    rw [show ([mB, mC, mD].filter fun b => calculate_iou mA b < (1:ℚ)/10) = [mC, mD] from by
      norm_num [List.filter, hAB, hAC, hAD]]
    rw [nmsLoop_cons]
    rw [show ([mD].filter fun b => calculate_iou mC b < (1:ℚ)/10) = [mD] from by
      norm_num [List.filter, hCD]]
    rw [nmsLoop_cons]
    rw [show (([] : List BoundingBox).filter fun b => calculate_iou mD b < (1:ℚ)/10)
        = ([] : List BoundingBox) from rfl]
    rw [nmsLoop_nil]
  have hrun2 : simple_nms (2/5) monoBoxes = [mA, mB] := by
    rw [simple_nms, if_neg (by simp [monoBoxes]), hsort,
      show monoBoxes = [mA, mB, mC, mD] from rfl, nmsLoop_cons]
    rw [show ([mB, mC, mD].filter fun b => calculate_iou mA b < (2:ℚ)/5) = [mB, mC, mD] from by
      norm_num [List.filter, hAB, hAC, hAD]]
    rw [nmsLoop_cons]
    rw [show ([mC, mD].filter fun b => calculate_iou mB b < (2:ℚ)/5) = ([] : List BoundingBox) from by
      norm_num [List.filter, hBC, hBD]]
    rw [nmsLoop_nil]
  refine ⟨by norm_num, hrun1, hrun2, ?_⟩
  rw [hrun1, hrun2]
  simp

/-- Claim C10: on any non-empty input the fallback greedy NMS emits a
subsequence of the confidence-sorted input (hence every output box is an input
box) in non-increasing confidence order. -/
theorem nms_output_sorted_subsequence (t : ℚ) (boxes : List BoundingBox)
    (h : boxes ≠ []) :
    List.Pairwise confDesc (simple_nms t boxes)
    ∧ List.Sublist (simple_nms t boxes) (sortedByConfDesc boxes)
    ∧ ∀ b ∈ simple_nms t boxes, b ∈ boxes := by
  have he : ¬ boxes.isEmpty := fun hh => h (List.isEmpty_iff.mp hh)
  rw [simple_nms, if_neg he]
  refine ⟨List.Pairwise.sublist (nmsLoop_sublist t _) (sortedByConfDesc_sorted boxes),
    nmsLoop_sublist t _, fun b hb => ?_⟩
  exact (sortedByConfDesc_perm boxes).subset ((nmsLoop_sublist t _).subset hb)

/-- Witness for the C10 theorem on a concrete singleton input. -/
theorem nms_output_sorted_subsequence_witness :
    List.Pairwise confDesc (simple_nms (1/2) [w10Box])
    ∧ List.Sublist (simple_nms (1/2) [w10Box]) (sortedByConfDesc [w10Box]) := by
  have hmain := nms_output_sorted_subsequence (1/2) [w10Box] (by simp)
  exact ⟨hmain.1, hmain.2.1⟩

/-- The class test of the claim is decidable: when no class restriction is set
it holds vacuously, otherwise it is list membership. -/
instance decClassAllowed (o : Option (List String)) (s : String) :
    Decidable (∀ cs, o = some cs → s ∈ cs) :=
  match o with
  | none => isTrue fun _ h => nomatch h
  | some l => decidable_of_iff (s ∈ l)
      ⟨fun h _ hcs => Option.some.inj hcs ▸ h, fun h => h l rfl⟩

instance (f : DetectionFilter) (b : BoundingBox) : Decidable (claimKeep f b) :=
  inferInstanceAs (Decidable (_ ∧ _ ∧ _ ∧ _))

/-- The source's keep decision agrees with the claim's three-part condition. -/
lemma keepBox_iff (f : DetectionFilter) (b : BoundingBox) :
    keepBox f b = true ↔ claimKeep f b := by
  unfold keepBox claimKeep boxArea
  cases hec : f.enabled_classes <;>
    simp only [hec] <;> split_ifs <;>
      simp_all [not_or, not_lt, not_le, List.elem_iff, or_iff_not_imp_left]

/-- Bool-level form of `keepBox_iff`, for rewriting inside `List.filter`. -/
lemma keepBox_eq_decide (f : DetectionFilter) (b : BoundingBox) :
    keepBox f b = decide (claimKeep f b) := by
  by_cases h : claimKeep f b
  · simp [h, (keepBox_iff f b).mpr h]
  · cases hk : keepBox f b
    · simp [h]
    · exact absurd ((keepBox_iff f b).mp hk) h

/-- Claim C6: filtering keeps exactly the input boxes that satisfy the
confidence, class and area conditions, preserves the remaining fields of the
result, and (being a pure function of the configuration and input) does not
mutate its input. -/
theorem filter_detections_characterization (f : DetectionFilter) (result : DetectionResult) :
    (filter_detections f result).bounding_boxes
      = result.bounding_boxes.filter (fun b => decide (claimKeep f b))
    ∧ (∀ b : BoundingBox, keepBox f b = true ↔
        (f.min_confidence ≤ b.confidence
          ∧ (∀ cs, f.enabled_classes = some cs → b.class_name ∈ cs)
          ∧ f.min_area ≤ (b.x2 - b.x1) * (b.y2 - b.y1)
          ∧ (((b.x2 - b.x1) * (b.y2 - b.y1) : ℚ) : WithTop ℚ) ≤ f.max_area))
    ∧ (filter_detections f result).inference_time_ms = result.inference_time_ms
    ∧ (filter_detections f result).frame_shape = result.frame_shape
    ∧ (filter_detections f result).model_input_shape = result.model_input_shape := by
  refine ⟨?_, fun b => keepBox_iff f b, rfl, rfl, rfl⟩
  exact List.filter_congr fun b _ => keepBox_eq_decide f b

/-- Claim C7 (amended): `set_confidence_threshold` rejects values outside
`[0,1]` with a validation error leaving the configuration unchanged, accepts
values inside `[0,1]`, and therefore preserves the range invariant on
`min_confidence`, which the default configuration satisfies; the
`DetectionFilter` constructor itself performs no validation (see the
counterexample), so the invariant holds for every filter that starts in range
rather than for every constructible filter. -/
theorem set_confidence_threshold_spec (threshold : ℚ) (f : DetectionFilter) :
    (¬ (0 ≤ threshold ∧ threshold ≤ 1) →
      set_confidence_threshold threshold f
        = (some "Confidence threshold must be between 0.0 and 1.0", f))
    ∧ ((0 ≤ threshold ∧ threshold ≤ 1) →
      set_confidence_threshold threshold f
        = (none, { f with min_confidence := threshold }))
    ∧ (0 ≤ f.min_confidence ∧ f.min_confidence ≤ 1 →
      0 ≤ (set_confidence_threshold threshold f).2.min_confidence
        ∧ (set_confidence_threshold threshold f).2.min_confidence ≤ 1)
    ∧ (0 ≤ defaultDetectionFilter.min_confidence ∧ defaultDetectionFilter.min_confidence ≤ 1) := by
  refine ⟨fun h => by rw [set_confidence_threshold, if_pos h],
    fun h => by rw [set_confidence_threshold, if_neg (not_not.mpr h)],
    fun hf => ?_, by norm_num [defaultDetectionFilter]⟩
  by_cases h : 0 ≤ threshold ∧ threshold ≤ 1
  · rw [set_confidence_threshold, if_neg (not_not.mpr h)]
    exact h
  · rw [set_confidence_threshold, if_pos h]
    exact hf

/-- Witness for the C7 theorem: the out-of-range value `3/2` is rejected and the
default configuration is returned unchanged. -/
theorem set_confidence_threshold_witness :
    ¬ (0 ≤ (3 : ℚ)/2 ∧ (3 : ℚ)/2 ≤ 1)
    ∧ set_confidence_threshold (3/2) defaultDetectionFilter
        = (some "Confidence threshold must be between 0.0 and 1.0", defaultDetectionFilter) :=
  ⟨by norm_num, (set_confidence_threshold_spec (3/2) defaultDetectionFilter).1 (by norm_num)⟩

/-- Claim C7, counterexample to the unconditional range invariant: the
`DetectionFilter` dataclass performs no validation, so a directly constructed
filter can carry `min_confidence = 2`, outside `[0,1]`. -/
theorem min_confidence_range_counterexample :
    ¬ (0 ≤ (DetectionFilter.mk none 2 0 ⊤).min_confidence
        ∧ (DetectionFilter.mk none 2 0 ⊤).min_confidence ≤ 1) := by
  norm_num

/-- Claim C8: a successful load with no model current never invokes the reload
callback; a successful load with a model already current invokes it exactly
once with the new `ModelInfo`; and the call returns the new `ModelInfo`
regardless of the callback's outcome (exceptions are caught, not propagated). -/
theorem load_model_callback_spec (find_result : Except String ModelInfo)
    (cb : ModelInfo → Except String Unit) (s : LoaderState) (model_info : ModelInfo)
    (h : find_result = .ok model_info) :
    (load_model find_result (some cb) s).1 = .ok model_info
    ∧ (load_model find_result (some cb) s).2.1.current_model = some model_info
    ∧ (s.current_model = none → (load_model find_result (some cb) s).2.2 = [])
    ∧ (∀ m, s.current_model = some m →
        (load_model find_result (some cb) s).2.2 = [(model_info, cb model_info)])
    ∧ (∀ e, cb model_info = .error e →
        (load_model find_result (some cb) s).1 = .ok model_info) := by
  subst h
  cases hs : s.current_model <;>
    simp [load_model, hs]

/-- Witness for the C8 theorem: a reload over a current model with a callback
that raises still returns the new `ModelInfo`, and the callback was invoked
exactly once with it. -/
theorem load_model_callback_witness :
    (load_model (.ok wInfo) (some wCb) wState).1 = .ok wInfo
    ∧ (load_model (.ok wInfo) (some wCb) wState).2.2 = [(wInfo, .error "boom")] := by
  have hmain := load_model_callback_spec (.ok wInfo) wCb wState wInfo rfl
  exact ⟨hmain.1, hmain.2.2.2.1 wOld rfl⟩

/-- A row that decodes to `some` box was kept by the confidence filter, carries
the argmax confidence, has each corner produced by center-to-corner conversion,
letterbox inversion with the constant `640` and clipping to the original
dimensions, and is non-degenerate. -/
lemma decodeRow_some (th sc px py oh ow : ℚ) (cn : List String)
    (d : RawDetection) (b : BoundingBox)
    (hb : decodeRow th sc px py oh ow cn d = some b) :
    th ≤ d.class_scores.getD (argmaxIdx d.class_scores) 0
    ∧ b.confidence = d.class_scores.getD (argmaxIdx d.class_scores) 0
    ∧ b.x1 = max 0 (min (((d.x_center - d.width / 2) * 640 - px) / sc) ow)
    ∧ b.y1 = max 0 (min (((d.y_center - d.height / 2) * 640 - py) / sc) oh)
    ∧ b.x2 = max 0 (min (((d.x_center + d.width / 2) * 640 - px) / sc) ow)
    ∧ b.y2 = max 0 (min (((d.y_center + d.height / 2) * 640 - py) / sc) oh)
    ∧ b.x1 < b.x2 ∧ b.y1 < b.y2 := by
  simp only [decodeRow] at hb
  split_ifs at hb with h1 h2
  cases Option.some.inj hb
  push_neg at h1 h2
  exact ⟨h1, rfl, rfl, rfl, rfl, rfl, h2.1, h2.2⟩

/-- Claim C2 (amended): for every decoded row kept by the confidence filter the
postprocessing converts center-form to corner-form in normalized space and
inverts the letterbox via `pixel = (normalized * 640 - pad) / scale` per axis,
where the normalization base is the hardcoded constant `640` — equal to the
Preprocessor's default target side but not to a differently configured one
(see the counterexample) — then clips all four coordinates to
`[0, original_dimension]` and drops every box with `x2 ≤ x1` or `y2 ≤ y1`
after clipping, so no degenerate box is ever returned by `process_output`. -/
theorem decode_pipeline_characterization (confidence_threshold : ℚ)
    (nmsIdx : List BoundingBox → List Nat) (class_names : List String)
    (scale : ℚ) (padding : ℚ × ℚ) (original_shape : ℚ × ℚ)
    (detections : List RawDetection) :
    (640 : ℚ) = (defaultFramePreprocessor.target_width : ℚ)
    ∧ (∀ d : RawDetection,
        decodeRow confidence_threshold scale padding.1 padding.2
            original_shape.1 original_shape.2 class_names d
          = decodeRowClaim 640 confidence_threshold scale padding.1 padding.2
              original_shape.1 original_shape.2 class_names d)
    ∧ (∀ (d : RawDetection) (b : BoundingBox),
        decodeRow confidence_threshold scale padding.1 padding.2
            original_shape.1 original_shape.2 class_names d = some b →
          confidence_threshold ≤ d.class_scores.getD (argmaxIdx d.class_scores) 0
          ∧ b.confidence = d.class_scores.getD (argmaxIdx d.class_scores) 0
          ∧ b.x1 = max 0 (min (((d.x_center - d.width / 2) * 640 - padding.1) / scale) original_shape.2)
          ∧ b.y1 = max 0 (min (((d.y_center - d.height / 2) * 640 - padding.2) / scale) original_shape.1)
          ∧ b.x2 = max 0 (min (((d.x_center + d.width / 2) * 640 - padding.1) / scale) original_shape.2)
          ∧ b.y2 = max 0 (min (((d.y_center + d.height / 2) * 640 - padding.2) / scale) original_shape.1)
          ∧ b.x1 < b.x2 ∧ b.y1 < b.y2)
    ∧ (∀ b ∈ process_output confidence_threshold nmsIdx class_names scale padding
          original_shape detections,
        (∃ d ∈ detections,
          decodeRow confidence_threshold scale padding.1 padding.2
            original_shape.1 original_shape.2 class_names d = some b)
        ∧ b.x1 < b.x2 ∧ b.y1 < b.y2) := by
  refine ⟨by norm_num [defaultFramePreprocessor, FramePreprocessor.target_width],
    fun d => rfl, fun d b hb => decodeRow_some _ _ _ _ _ _ _ _ _ hb, fun b hb => ?_⟩
  simp only [process_output] at hb
  split_ifs at hb with he
  · exact absurd hb (List.not_mem_nil b)
  · obtain ⟨i, _, hi⟩ := List.mem_filterMap.mp hb
    have hmem := List.getElem?_mem hi
    obtain ⟨d, hd, hdec⟩ := List.mem_filterMap.mp hmem
    have hch := decodeRow_some _ _ _ _ _ _ _ _ _ hdec
    exact ⟨⟨d, hd, hdec⟩, hch.2.2.2.2.2.2⟩

/-- Claim C2, counterexample to "the normalization base equals the
Preprocessor's configured target size": with the preprocessor configured at
`320`, the source decode (hardcoded `640`) and the claim's decode (base `320`)
produce different boxes from the same row. -/
theorem decode_base_ne_target_counterexample :
    FramePreprocessor.target_width { target_size := (320, 320) } = 320
    ∧ decodeRow (1/2) 1 0 0 320 320 ["person"] c2Row
        ≠ decodeRowClaim 320 (1/2) 1 0 0 320 320 ["person"] c2Row := by
  refine ⟨rfl, ?_⟩
  have h1 : decodeRow (1/2) 1 0 0 320 320 ["person"] c2Row = some c2Box := by
    norm_num [decodeRow, c2Row, c2Box, argmaxIdx, argmaxAux, min_def, max_def, List.getD]
  have h2 : decodeRowClaim 320 (1/2) 1 0 0 320 320 ["person"] c2Row
      = some { x1 := 120, y1 := 120, x2 := 200, y2 := 200, confidence := 9/10,
               class_id := 0, class_name := "person" } := by
    norm_num [decodeRowClaim, c2Row, argmaxIdx, argmaxAux, min_def, max_def, List.getD]
  rw [h1, h2]
  simp only [ne_eq, Option.some.injEq, BoundingBox.mk.injEq, c2Box]
  norm_num

/-- Witness for the C2 theorem: the concrete row `c2Row` decodes to the
non-degenerate box `c2Box`. -/
theorem decode_pipeline_witness :
    decodeRow (1/2) 1 0 0 320 320 ["person"] c2Row = some c2Box
    ∧ c2Box.x1 < c2Box.x2 ∧ c2Box.y1 < c2Box.y2 := by
  have hsome : decodeRow (1/2) 1 0 0 320 320 ["person"] c2Row = some c2Box := by
    norm_num [decodeRow, c2Row, c2Box, argmaxIdx, argmaxAux, min_def, max_def, List.getD]
  have hmain := (decode_pipeline_characterization (1/2) (fun _ => [0]) ["person"]
    1 (0, 0) (320, 320) [c2Row]).2.2.1 c2Row c2Box hsome
  exact ⟨hsome, hmain.2.2.2.2.2.2⟩

/-- Claim C3: letterbox preprocessing computes `scale = min(W/w, H/h)`, resizes
to the integer-truncated `(w*scale, h*scale)`, centers the resized raster on an
`H×W` canvas of `114`s at the integer-divided offsets
`pad_x = (W-new_w)//2`, `pad_y = (H-new_h)//2`, normalizes intensities into
`[0,1]` as channel-first values with a batch dimension prepended, and returns
exactly that tensor together with `scale` and `(pad_x, pad_y)`. The equation
hypotheses name the intermediate quantities; the first conjunct is the full
input/output description, the rest record that the offsets are non-negative,
that the resized raster fits the canvas, and that every tensor entry lies in
`[0,1]`. -/
theorem preprocess_letterbox_characterization
    (resizePx : Frame → Nat → Nat → Nat → Nat → Fin 3 → Fin 256)
    (p : FramePreprocessor) (frame : Frame)
    (hw : 0 < frame.width) (hh : 0 < frame.height)
    (s : ℚ)
    (hs : s = min ((p.target_width : ℚ) / (frame.width : ℚ))
      ((p.target_height : ℚ) / (frame.height : ℚ)))
    (nw nh : Nat)
    (hnw : nw = (Int.floor ((frame.width : ℚ) * s)).toNat)
    (hnh : nh = (Int.floor ((frame.height : ℚ) * s)).toNat)
    (px py : Int)
    (hpx : px = Int.fdiv ((p.target_width : Int) - (nw : Int)) 2)
    (hpy : py = Int.fdiv ((p.target_height : Int) - (nh : Int)) 2) :
    preprocess resizePx p frame
      = (fun _ c y x =>
          if py.toNat ≤ y ∧ y < py.toNat + nh ∧ px.toNat ≤ x ∧ x < px.toNat + nw
          then (((resizePx frame nw nh (y - py.toNat) (x - px.toNat)
              ⟨2 - c.val, by omega⟩ : Fin 256) : Nat) : ℚ) / 255
          else 114 / 255, s, (px, py))
    ∧ 0 ≤ px ∧ 0 ≤ py ∧ nw ≤ p.target_width ∧ nh ≤ p.target_height
    ∧ (∀ (c : Fin 3) (y x : Nat),
        0 ≤ (preprocess resizePx p frame).1 0 c y x
        ∧ (preprocess resizePx p frame).1 0 c y x ≤ 1) := by
  have hs0 : 0 ≤ s := by
    rw [hs]
    exact le_min (div_nonneg (Nat.cast_nonneg _) (Nat.cast_nonneg _))
      (div_nonneg (Nat.cast_nonneg _) (Nat.cast_nonneg _))
  have hwq : ((frame.width : ℚ)) ≠ 0 := by
    exact_mod_cast Nat.pos_iff_ne_zero.mp hw
  have hhq : ((frame.height : ℚ)) ≠ 0 := by
    exact_mod_cast Nat.pos_iff_ne_zero.mp hh
  have hnwle : nw ≤ p.target_width := by
    rw [hnw]
    rw [Int.toNat_le]
    calc Int.floor ((frame.width : ℚ) * s) ≤ Int.floor ((p.target_width : ℚ)) := by
          apply Int.floor_le_floor
          calc (frame.width : ℚ) * s
              ≤ (frame.width : ℚ) * ((p.target_width : ℚ) / (frame.width : ℚ)) := by
                apply mul_le_mul_of_nonneg_left _ (Nat.cast_nonneg _)
                rw [hs]; exact min_le_left _ _
            _ = (p.target_width : ℚ) := by
                rw [mul_comm]; exact div_mul_cancel₀ _ hwq
      _ = (p.target_width : Int) := by
          exact_mod_cast Int.floor_natCast p.target_width
  have hnhle : nh ≤ p.target_height := by
    rw [hnh]
    rw [Int.toNat_le]
    calc Int.floor ((frame.height : ℚ) * s) ≤ Int.floor ((p.target_height : ℚ)) := by
          apply Int.floor_le_floor
          calc (frame.height : ℚ) * s
              ≤ (frame.height : ℚ) * ((p.target_height : ℚ) / (frame.height : ℚ)) := by
                apply mul_le_mul_of_nonneg_left _ (Nat.cast_nonneg _)
                rw [hs]; exact min_le_right _ _
            _ = (p.target_height : ℚ) := by
                rw [mul_comm]; exact div_mul_cancel₀ _ hhq
      _ = (p.target_height : Int) := by
          exact_mod_cast Int.floor_natCast p.target_height
  have hpx0 : 0 ≤ px := by
    rw [hpx]
    refine Int.fdiv_nonneg (Int.sub_nonneg.mpr ?_) (by norm_num)
    exact_mod_cast hnwle
  have hpy0 : 0 ≤ py := by
    rw [hpy]
    refine Int.fdiv_nonneg (Int.sub_nonneg.mpr ?_) (by norm_num)
    exact_mod_cast hnhle
  have hkey : preprocess resizePx p frame
      = (fun _ c y x =>
          if py.toNat ≤ y ∧ y < py.toNat + nh ∧ px.toNat ≤ x ∧ x < px.toNat + nw
          then (((resizePx frame nw nh (y - py.toNat) (x - px.toNat)
              ⟨2 - c.val, by omega⟩ : Fin 256) : Nat) : ℚ) / 255
          else 114 / 255, s, (px, py)) := by
    subst hs hnw hnh hpx hpy
    simp only [preprocess, FramePreprocessor.target_width, FramePreprocessor.target_height]
    refine congrArg₂ Prod.mk ?_ rfl
    funext i c y x
    split_ifs <;> rfl
  refine ⟨hkey, hpx0, hpy0, hnwle, hnhle, fun c y x => ?_⟩
  rw [hkey]
  dsimp only
  by_cases hwin : py.toNat ≤ y ∧ y < py.toNat + nh ∧ px.toNat ≤ x ∧ x < px.toNat + nw
  · rw [if_pos hwin]
    constructor
    · positivity
    · rw [div_le_one (by norm_num : (0:ℚ) < 255)]
      have hlt := (resizePx frame nw nh (y - py.toNat) (x - px.toNat)
        ⟨2 - c.val, by omega⟩).isLt
      exact_mod_cast Nat.lt_succ_iff.mp hlt
  · rw [if_neg hwin]
    norm_num

/-- Witness for the C3 theorem: the `1×2` frame letterboxed into a `4×4` target
has scale `2`, resized size `4×2`, offsets `(0, 1)`, and exactly the described
output tuple. -/
theorem preprocess_letterbox_witness :
    0 < wFrame.width ∧ 0 < wFrame.height
    ∧ preprocess wResize wPre wFrame
      = (fun _ c y x =>
          if (1 : Int).toNat ≤ y ∧ y < (1 : Int).toNat + 2
              ∧ (0 : Int).toNat ≤ x ∧ x < (0 : Int).toNat + 4
          then (((wResize wFrame 4 2 (y - (1 : Int).toNat) (x - (0 : Int).toNat)
              ⟨2 - c.val, by omega⟩ : Fin 256) : Nat) : ℚ) / 255
          else 114 / 255, 2, ((0 : Int), (1 : Int))) := by
  have hs : (2 : ℚ) = min ((wPre.target_width : ℚ) / (wFrame.width : ℚ))
      ((wPre.target_height : ℚ) / (wFrame.height : ℚ)) := by
    norm_num [wPre, wFrame, FramePreprocessor.target_width, FramePreprocessor.target_height,
      min_def]
  have hnw : (4 : Nat) = (Int.floor ((wFrame.width : ℚ) * 2)).toNat := by
    norm_num [wFrame]
    decide
  have hnh : (2 : Nat) = (Int.floor ((wFrame.height : ℚ) * 2)).toNat := by
    norm_num [wFrame]
    decide
  have hpx : (0 : Int) = Int.fdiv ((wPre.target_width : Int) - ((4 : Nat) : Int)) 2 := by
    decide
  have hpy : (1 : Int) = Int.fdiv ((wPre.target_height : Int) - ((2 : Nat) : Int)) 2 := by
    decide
  exact ⟨by decide, by decide,
    (preprocess_letterbox_characterization wResize wPre wFrame (by decide) (by decide)
      2 hs 4 2 hnw hnh 0 1 hpx hpy).1⟩

end ViewGuard
